import Mathlib

/-!
Shallow embedding of the trading core of the Fyers-Algo-Bot repository
(tick→candle aggregation, strategy position bookkeeping, consensus voting,
risk / position management, backtest driver), with theorems checking the
natural-language specification against the code.

Conventions of the embedding:
* Python floats are modelled as rationals (`ℚ`); Python ints as `ℤ`/`ℕ`.
* Python dicts keyed by symbol are association lists `List (String × _)`
  with dict semantics (`getKey`/`setKey`/`delKey`: first-occurrence
  lookup, in-place overwrite or append, first-occurrence removal).
* `None`-returning Python functions return `Option _`.
* Python `int(x)` (truncation toward zero) is `pyInt`.
* Python float `** 0.5` (square root) is an abstract parameter
  `sqrt : ℚ → ℚ`; every theorem that touches it only needs `sqrt 0 = 0`,
  which holds of the actual floating-point square root.
-/

/-- Trade/position side; the code uses the strings "BUY" and "SELL"
(every comparison in the code is `== "BUY"` with an `else` for the
other side, so a two-constructor type is faithful). -/
inductive Side where
  | buy
  | sell
deriving DecidableEq, Repr

/-- An open position as recorded by `RiskManager.open_position`
(`src/app/analytics/risk/manager.py`): the dict
`{'side', 'entry_price', 'quantity', 'stop_loss', 'take_profit'}`. -/
structure RMPosition where
  side : Side
  entry_price : ℚ
  quantity : ℤ
  stop_loss : ℚ
  take_profit : ℚ
deriving DecidableEq, Repr

/-- A closed trade as recorded by `RiskManager.close_position`: the dict
`{'symbol', 'side', 'entry', 'exit', 'quantity', 'pnl'}`. -/
structure RMTrade where
  symbol : String
  side : Side
  entry : ℚ
  exit : ℚ
  quantity : ℤ
  pnl : ℚ
deriving DecidableEq, Repr

/-- Dict lookup (`d[k]` / `k in d`): value at the first matching key. -/
def getKey (l : List (String × RMPosition)) (k : String) : Option RMPosition :=
  match l with
  | [] => none
  | (k', v) :: rest => if k' = k then some v else getKey rest k

/-- Dict assignment `d[k] = v`: overwrite the first occurrence in place,
or append a new binding (CPython dicts keep insertion order). -/
def setKey (l : List (String × RMPosition)) (k : String) (v : RMPosition) :
    List (String × RMPosition) :=
  match l with
  | [] => [(k, v)]
  | (k', v') :: rest => if k' = k then (k, v) :: rest else (k', v') :: setKey rest k v

/-- Dict removal `d.pop(k)` (the value is fetched by `getKey`). -/
def delKey (l : List (String × RMPosition)) (k : String) :
    List (String × RMPosition) :=
  match l with
  | [] => []
  | (k', v') :: rest => if k' = k then rest else (k', v') :: delKey rest k

/-- State of `RiskManager.__init__` (`src/app/analytics/risk/manager.py`). -/
structure RiskManager where
  initial_capital : ℚ
  current_capital : ℚ
  max_risk_per_trade : ℚ
  max_portfolio_risk : ℚ
  stop_loss_pct : ℚ
  take_profit_pct : ℚ
  open_positions : List (String × RMPosition)
  closed_trades : List RMTrade
deriving DecidableEq, Repr

/-- A fresh `RiskManager()` with the constructor's default arguments
(capital 100000, risk 2%, portfolio cap 6%, stop 2%, target 4%). -/
def mkRiskManager : RiskManager :=
  { initial_capital := 100000
    current_capital := 100000
    max_risk_per_trade := 2/100
    max_portfolio_risk := 6/100
    stop_loss_pct := 2/100
    take_profit_pct := 4/100
    open_positions := []
    closed_trades := [] }

/-- Python `int(q)`: truncation toward zero. -/
def pyInt (q : ℚ) : ℤ :=
  if q < 0 then -(Int.floor (-q)) else Int.floor q

/-- `RiskManager.calculate_position_size`: risk amount over stop-loss
distance, truncated to an int, minimum 1 share; returns 1 outright when
the stop-loss distance is zero. -/
def RiskManager.calculate_position_size (rm : RiskManager) (entry_price : ℚ) : ℤ :=
  let risk_amount := rm.current_capital * rm.max_risk_per_trade
  let stop_loss_distance := entry_price * rm.stop_loss_pct
  if stop_loss_distance = 0 then 1
  else max 1 (pyInt (risk_amount / stop_loss_distance))

/-- `RiskManager.calculate_stop_loss`. -/
def RiskManager.calculate_stop_loss (rm : RiskManager) (entry_price : ℚ) (side : Side) : ℚ :=
  match side with
  | .buy => entry_price * (1 - rm.stop_loss_pct)
  | .sell => entry_price * (1 + rm.stop_loss_pct)

/-- `RiskManager.calculate_take_profit`. -/
def RiskManager.calculate_take_profit (rm : RiskManager) (entry_price : ℚ) (side : Side) : ℚ :=
  match side with
  | .buy => entry_price * (1 + rm.take_profit_pct)
  | .sell => entry_price * (1 - rm.take_profit_pct)

/-- `RiskManager.open_position`: computes stop-loss / take-profit and
stores the position dict under the symbol (an unconditional dict
assignment: there is no existence check in the code). -/
def RiskManager.open_position (rm : RiskManager) (symbol : String) (side : Side)
    (entry_price : ℚ) (quantity : ℤ) : RiskManager :=
  let sl := rm.calculate_stop_loss entry_price side
  let tp := rm.calculate_take_profit entry_price side
  { rm with open_positions :=
      setKey rm.open_positions symbol ⟨side, entry_price, quantity, sl, tp⟩ }

/-- `RiskManager.close_position`: `None` and no state change when the
symbol has no open position; otherwise pop the position, compute
side-aware PnL, add it to capital, append the trade. Returns the
Python return value paired with the successor state. -/
def RiskManager.close_position (rm : RiskManager) (symbol : String) (exit_price : ℚ) :
    Option RMTrade × RiskManager :=
  match getKey rm.open_positions symbol with
  | none => (none, rm)
  | some pos =>
    let pnl :=
      match pos.side with
      | .buy => (exit_price - pos.entry_price) * (pos.quantity : ℚ)
      | .sell => (pos.entry_price - exit_price) * (pos.quantity : ℚ)
    let trade : RMTrade := ⟨symbol, pos.side, pos.entry_price, exit_price, pos.quantity, pnl⟩
    (some trade,
      { rm with
        open_positions := delKey rm.open_positions symbol
        current_capital := rm.current_capital + pnl
        closed_trades := rm.closed_trades ++ [trade] })

/-- Result of `RiskManager.get_stats`. The empty-history branch of the
code returns a dict without a `'final_capital'` key, the main branch a
dict with one; the optional field records key presence faithfully. -/
structure RMStats where
  total_trades : ℕ
  winning_trades : ℕ
  losing_trades : ℕ
  win_rate : ℚ
  total_pnl : ℚ
  avg_win : ℚ
  avg_loss : ℚ
  profit_factor : ℚ
  final_capital : Option ℚ
deriving DecidableEq, Repr

/-- `RiskManager.get_stats` (`src/app/analytics/risk/manager.py`). -/
def RiskManager.get_stats (rm : RiskManager) : RMStats :=
  if rm.closed_trades = [] then
    ⟨0, 0, 0, 0, 0, 0, 0, 0, none⟩
  else
    let total := rm.closed_trades.length
    let wins := rm.closed_trades.filter (fun t => 0 < t.pnl)
    let losses := rm.closed_trades.filter (fun t => t.pnl < 0)
    let total_pnl := (rm.closed_trades.map RMTrade.pnl).sum
    let avg_win := if wins ≠ [] then (wins.map RMTrade.pnl).sum / (wins.length : ℚ) else 0
    let avg_loss := if losses ≠ [] then (losses.map RMTrade.pnl).sum / (losses.length : ℚ) else 0
    let gross_profit := (wins.map RMTrade.pnl).sum
    let gross_loss := |(losses.map RMTrade.pnl).sum|
    let profit_factor := if 0 < gross_loss then gross_profit / gross_loss else 0
    let win_rate := if 0 < total then (wins.length : ℚ) / (total : ℚ) * 100 else 0
    ⟨total, wins.length, losses.length, win_rate, total_pnl, avg_win, avg_loss,
      profit_factor, some rm.current_capital⟩

/-- Division that refuses a zero denominator; used to re-run
`get_stats` with every division checked. -/
def safeDiv (a b : ℚ) : Option ℚ :=
  if b = 0 then none else some (a / b)

/-- `RiskManager.get_stats` with each division routed through `safeDiv`:
returns `none` exactly when some executed division had a zero
denominator. -/
def RiskManager.get_stats_checked (rm : RiskManager) : Option RMStats :=
  if rm.closed_trades = [] then
    some ⟨0, 0, 0, 0, 0, 0, 0, 0, none⟩
  else
    let total := rm.closed_trades.length
    let wins := rm.closed_trades.filter (fun t => 0 < t.pnl)
    let losses := rm.closed_trades.filter (fun t => t.pnl < 0)
    let total_pnl := (rm.closed_trades.map RMTrade.pnl).sum
    let gross_profit := (wins.map RMTrade.pnl).sum
    let gross_loss := |(losses.map RMTrade.pnl).sum|
    do
      let avg_win ← if wins ≠ [] then safeDiv (wins.map RMTrade.pnl).sum (wins.length : ℚ)
                    else some 0
      let avg_loss ← if losses ≠ [] then safeDiv (losses.map RMTrade.pnl).sum (losses.length : ℚ)
                     else some 0
      let profit_factor ← if 0 < gross_loss then safeDiv gross_profit gross_loss else some 0
      let win_rate_base ← if 0 < total then safeDiv (wins.length : ℚ) (total : ℚ) else some 0
      some ⟨total, wins.length, losses.length,
        (if 0 < total then win_rate_base * 100 else 0), total_pnl, avg_win, avg_loss,
        profit_factor, some rm.current_capital⟩

/-- A candle as consumed by the strategies: the dict with keys
`time, symbol, open, high, low, close, volume` (`open` is a Lean
keyword, hence `open_price`; times are abstract integers). -/
structure Candle where
  symbol : String
  time : ℤ
  open_price : ℚ
  high : ℚ
  low : ℚ
  close : ℚ
  volume : ℤ
deriving DecidableEq, Repr

/-- A strategy's own open position (`BaseStrategy._handle_buy_signal` /
`_handle_sell_signal`, `src/app/analytics/strategies/base_strategy.py`):
the dict `{'side', 'entry_price', 'quantity', 'entry_time'}`. -/
structure StratPosition where
  side : Side
  entry_price : ℚ
  quantity : ℤ
  entry_time : ℤ
deriving DecidableEq, Repr

/-- A strategy trade record (`BaseStrategy._close_position`). -/
structure StratTrade where
  symbol : String
  side : Side
  entry_price : ℚ
  exit_price : ℚ
  quantity : ℤ
  pnl : ℚ
  entry_time : ℤ
  exit_time : ℤ
deriving DecidableEq, Repr

/-- The position/trade bookkeeping state of `BaseStrategy`. The Python
attribute `self.position` is a single optional dict, so a strategy holds
at most one open position by construction. -/
structure StratState where
  symbol : String
  position : Option StratPosition
  trades : List StratTrade
deriving DecidableEq, Repr

/-- `BaseStrategy._close_position`: no-op when flat, otherwise realize
side-aware PnL against the candle close, append the trade, clear the
position. -/
def StratState.close_position (s : StratState) (c : Candle) : StratState :=
  match s.position with
  | none => s
  | some p =>
    let exit_price := c.close
    let pnl :=
      match p.side with
      | .buy => (exit_price - p.entry_price) * (p.quantity : ℚ)
      | .sell => (p.entry_price - exit_price) * (p.quantity : ℚ)
    { s with
      position := none
      trades := s.trades ++
        [⟨s.symbol, p.side, p.entry_price, exit_price, p.quantity, pnl, p.entry_time, c.time⟩] }

/-- `BaseStrategy._handle_buy_signal`: if already long, return; if short,
close first; then open a long at the candle close. -/
def StratState.handle_buy_signal (s : StratState) (c : Candle) (quantity : ℤ) : StratState :=
  match s.position with
  | some p =>
    match p.side with
    | .buy => s
    | .sell =>
      let s1 := s.close_position c
      { s1 with position := some ⟨.buy, c.close, quantity, c.time⟩ }
  | none => { s with position := some ⟨.buy, c.close, quantity, c.time⟩ }

/-- `BaseStrategy._handle_sell_signal`: mirror image of the buy handler. -/
def StratState.handle_sell_signal (s : StratState) (c : Candle) (quantity : ℤ) : StratState :=
  match s.position with
  | some p =>
    match p.side with
    | .sell => s
    | .buy =>
      let s1 := s.close_position c
      { s1 with position := some ⟨.sell, c.close, quantity, c.time⟩ }
  | none => { s with position := some ⟨.sell, c.close, quantity, c.time⟩ }

/-- Result of `BaseStrategy.get_stats` (no capital at strategy scope). -/
structure StratStats where
  total_trades : ℕ
  winning_trades : ℕ
  losing_trades : ℕ
  win_rate : ℚ
  total_pnl : ℚ
  avg_win : ℚ
  avg_loss : ℚ
deriving DecidableEq, Repr

/-- `BaseStrategy.get_stats`. -/
def StratState.get_stats (s : StratState) : StratStats :=
  if s.trades = [] then ⟨0, 0, 0, 0, 0, 0, 0⟩
  else
    let total := s.trades.length
    let wins := s.trades.filter (fun t => 0 < t.pnl)
    let losses := s.trades.filter (fun t => t.pnl < 0)
    let total_pnl := (s.trades.map StratTrade.pnl).sum
    let avg_win := if wins ≠ [] then (wins.map StratTrade.pnl).sum / (wins.length : ℚ) else 0
    let avg_loss := if losses ≠ [] then (losses.map StratTrade.pnl).sum / (losses.length : ℚ) else 0
    let win_rate := if 0 < total then (wins.length : ℚ) / (total : ℚ) * 100 else 0
    ⟨total, wins.length, losses.length, win_rate, total_pnl, avg_win, avg_loss⟩

/-- State of `ScalpingMeanReversionStrategy`
(`src/app/analytics/strategies/intraday/scalping_mean_reversion.py`). -/
structure ScalpState where
  base : StratState
  bb_period : ℕ
  bb_std : ℚ
  price_history : List ℚ
deriving DecidableEq, Repr

/-- `ScalpingMeanReversionStrategy(symbol, bb_period, bb_std)`. -/
def mkScalp (symbol : String) (bb_period : ℕ) (bb_std : ℚ) : ScalpState :=
  ⟨⟨symbol, none, []⟩, bb_period, bb_std, []⟩

/-- `ScalpingMeanReversionStrategy.calculate_bollinger_bands`: mean and
population standard deviation over the last `period` prices;
`(None, None, None)` while fewer than `period` prices exist. The float
square root `variance ** 0.5` is the abstract `sqrt` parameter. -/
def calculate_bollinger_bands (sqrt : ℚ → ℚ) (period : ℕ) (k : ℚ) (prices : List ℚ) :
    Option (ℚ × ℚ × ℚ) :=
  if prices.length < period then none
  else
    let recent := prices.drop (prices.length - period)
    let ma := recent.sum / (recent.length : ℚ)
    let variance := (recent.map (fun x => (x - ma) ^ 2)).sum / (recent.length : ℚ)
    let std := sqrt variance
    some (ma + k * std, ma, ma - k * std)

/-- `ScalpingMeanReversionStrategy.on_candle`: append the close to the
history (capped at the last 100), compute the bands, and — mirroring the
Python truthiness test `if not upper` — bail out when the bands are
`None` or `upper == 0`. Flat: BUY when `close <= lower`. In a position:
SELL when `close >= upper or close >= middle`. Returns the successor
state and the action of the returned signal dict, if any. -/
def ScalpState.on_candle (sqrt : ℚ → ℚ) (s : ScalpState) (c : Candle) :
    ScalpState × Option Side :=
  let close := c.close
  let hist0 := s.price_history ++ [close]
  let hist := if 100 < hist0.length then hist0.drop (hist0.length - 100) else hist0
  let s1 : ScalpState := { s with price_history := hist }
  match calculate_bollinger_bands sqrt s1.bb_period s1.bb_std hist with
  | none => (s1, none)
  | some (upper, middle, lower) =>
    if upper = 0 then (s1, none)
    else
      match s1.base.position with
      | none =>
        if close ≤ lower then
          ({ s1 with base := s1.base.handle_buy_signal c 1 }, some .buy)
        else (s1, none)
      | some _ =>
        if upper ≤ close ∨ middle ≤ close then
          ({ s1 with base := s1.base.handle_sell_signal c 1 }, some .sell)
        else (s1, none)

/-- The per-run result dict of `BacktestEngine.run`
(`src/app/analytics/backtest/engine.py`); `avg_win`/`avg_loss` omitted
here since no claim mentions them. -/
structure BacktestResult where
  total_trades : ℕ
  pnl : ℚ
  win_rate : ℚ
  wins : ℕ
  losses : ℕ
deriving DecidableEq, Repr

/-- `BacktestEngine.run` specialised to a `ScalpingMeanReversionStrategy`:
empty candle list short-circuits to zeros, otherwise every candle is fed
to `strategy.on_candle` in order and the strategy's stats are reported.
The loop body is the entire post-fetch behaviour of `run`: in particular
nothing further is done to the strategy after the last candle. Returns
the strategy object's final state alongside the result dict. -/
def backtestRun (sqrt : ℚ → ℚ) (strat : ScalpState) (candles : List Candle) :
    ScalpState × BacktestResult :=
  match candles with
  | [] => (strat, ⟨0, 0, 0, 0, 0⟩)
  | _ :: _ =>
    let final := candles.foldl (fun st c => (ScalpState.on_candle sqrt st c).1) strat
    let stats := final.base.get_stats
    (final, ⟨stats.total_trades, stats.total_pnl, stats.win_rate,
      stats.winning_trades, stats.losing_trades⟩)

/-- A tick for the real-time aggregator, after field-name resolution:
last traded price and reported (cumulative) volume. -/
structure Tick where
  ltp : ℚ
  volume : ℤ
deriving DecidableEq, Repr

/-- An in-progress 1-minute candle of `RealtimeTradingEngine`
(`src/app/scripts/realtime_trading_engine.py`). -/
structure RTCandle where
  open_price : ℚ
  high : ℚ
  low : ℚ
  close : ℚ
  volume : ℤ
deriving DecidableEq, Repr

/-- One step of `RealtimeTradingEngine._process_single_tick` for a single
symbol, restricted to ticks inside one bar interval (so the
timestamp-rollover branch never fires: the first tick opens the candle,
every later tick takes the update branch). `if not ltp: return` drops
zero prices; the volume update is the code's
`int(volume) if volume else ...` — overwrite when the report is nonzero,
keep otherwise. -/
def processTick (cur : Option RTCandle) (t : Tick) : Option RTCandle :=
  if t.ltp = 0 then cur
  else
    match cur with
    | none => some ⟨t.ltp, t.ltp, t.ltp, t.ltp, if t.volume = 0 then 0 else t.volume⟩
    | some cd => some ⟨cd.open_price, max cd.high t.ltp, min cd.low t.ltp, t.ltp,
        if t.volume = 0 then cd.volume else t.volume⟩

/-- The in-progress candle after a tick sequence within one interval. -/
def buildCandle (ts : List Tick) : Option RTCandle :=
  ts.foldl processTick none

/-- `RealtimeTradingEngine.check_consensus`: tally strategies whose
current signal's action is BUY resp. SELL; execute a BUY when at least 2
BUY votes and the symbol has no active position, else a SELL when at
least 2 SELL votes and the symbol has one; otherwise do nothing. -/
def check_consensus (signals : List (Option Side)) (hasActivePosition : Bool) : Option Side :=
  let buy_votes := (signals.filter (fun a => a = some Side.buy)).length
  let sell_votes := (signals.filter (fun a => a = some Side.sell)).length
  if 2 ≤ buy_votes ∧ hasActivePosition = false then some .buy
  else if 2 ≤ sell_votes ∧ hasActivePosition = true then some .sell
  else none

/-- The dominant-direction selection of `AutoTrader.scan_opportunities`
(`src/app/scripts/auto_trader.py`): the input is the sides of the
strategies currently holding a position; live/buy-only mode only accepts
a BUY quorum, paper mode accepts either; quorum is 2. -/
def dominant_signals (live_mode : Bool) (live_buy_only : Bool) (sides : List Side) :
    List Side :=
  let buys := sides.filter (fun a => a = Side.buy)
  let sells := sides.filter (fun a => a = Side.sell)
  if live_mode ∧ live_buy_only then
    (if 2 ≤ buys.length then buys else [])
  else if 2 ≤ buys.length then buys
  else if 2 ≤ sells.length then sells
  else []

/-- The keys of the open-position map, for the dict well-formedness
invariant (a Python dict never holds two entries for one key). -/
def keysNodup (l : List (String × RMPosition)) : Prop :=
  (l.map Prod.fst).Nodup

instance (l : List (String × RMPosition)) : Decidable (keysNodup l) := by
  unfold keysNodup; infer_instance

theorem getKey_setKey_self (l : List (String × RMPosition)) (k : String) (v : RMPosition) :
    getKey (setKey l k v) k = some v := by
  induction l with
  | nil => simp [setKey, getKey]
  | cons hd tl ih =>
    obtain ⟨k', v'⟩ := hd
    by_cases h : k' = k
    · simp [setKey, getKey, h]
    · simp [setKey, getKey, h, ih]

theorem getKey_eq_none_of_not_mem (l : List (String × RMPosition)) (k : String)
    (h : k ∉ l.map Prod.fst) : getKey l k = none := by
  induction l with
  | nil => rfl
  | cons hd tl ih =>
    obtain ⟨k', v'⟩ := hd
    simp only [List.map_cons, List.mem_cons] at h
    push_neg at h
    have hne : ¬k' = k := fun hx => h.1 hx.symm
    simp [getKey, hne, ih h.2]

theorem delKey_map_fst_sublist (l : List (String × RMPosition)) (k : String) :
    List.Sublist ((delKey l k).map Prod.fst) (l.map Prod.fst) := by
  induction l with
  | nil => simp [delKey]
  | cons hd tl ih =>
    obtain ⟨k', v'⟩ := hd
    by_cases h : k' = k
    · simp only [delKey, if_pos h, List.map_cons]
      exact List.sublist_cons_self _ _
    · simp only [delKey, if_neg h, List.map_cons]
      exact List.Sublist.cons₂ _ ih

theorem getKey_delKey_self (l : List (String × RMPosition)) (k : String)
    (h : keysNodup l) : getKey (delKey l k) k = none := by
  induction l with
  | nil => rfl
  | cons hd tl ih =>
    obtain ⟨k', v'⟩ := hd
    unfold keysNodup at h
    simp only [List.map_cons, List.nodup_cons] at h
    by_cases hk : k' = k
    · simp only [delKey, if_pos hk]
      exact getKey_eq_none_of_not_mem tl k (hk ▸ h.1)
    · simp only [delKey, if_neg hk, getKey, if_neg hk]
      exact ih h.2

theorem setKey_map_fst (l : List (String × RMPosition)) (k : String) (v : RMPosition) :
    (setKey l k v).map Prod.fst =
      if k ∈ l.map Prod.fst then l.map Prod.fst else l.map Prod.fst ++ [k] := by
  induction l with
  | nil => simp [setKey]
  | cons hd tl ih =>
    obtain ⟨k', v'⟩ := hd
    by_cases h : k' = k
    · simp [setKey, h]
    · simp only [setKey, if_neg h, List.map_cons, ih, List.mem_cons]
      have hne : ¬k = k' := fun hx => h hx.symm
      by_cases hm : k ∈ tl.map Prod.fst
      · simp [hm, hne]
      · simp [hm, hne]

theorem keysNodup_setKey (l : List (String × RMPosition)) (k : String) (v : RMPosition)
    (h : keysNodup l) : keysNodup (setKey l k v) := by
  unfold keysNodup at h ⊢
  rw [setKey_map_fst]
  by_cases hm : k ∈ l.map Prod.fst
  · simpa [hm] using h
  · simpa [hm, List.nodup_append] using h

theorem keysNodup_delKey (l : List (String × RMPosition)) (k : String)
    (h : keysNodup l) : keysNodup (delKey l k) :=
  List.Nodup.sublist (delKey_map_fst_sublist l k) h

/-- C1: `close_position` on an open position realizes PnL side-aware —
`(exit − entry) × qty` for BUY, `(entry − exit) × qty` for SELL — adds
exactly that PnL to `current_capital`, appends exactly that one trade,
and removes the position from the open-position map; concretely, a BUY
of 10 @100 closed @110 yields PnL +100 and capital +100, and a SELL of
10 @100 closed @90 yields PnL +100 symmetrically. -/
theorem close_position_realizes_side_aware_pnl :
    (∀ (rm : RiskManager) (symbol : String) (exit_price : ℚ) (pos : RMPosition),
      keysNodup rm.open_positions →
      getKey rm.open_positions symbol = some pos →
      (rm.close_position symbol exit_price).1 =
        some ⟨symbol, pos.side, pos.entry_price, exit_price, pos.quantity,
          match pos.side with
          | Side.buy => (exit_price - pos.entry_price) * (pos.quantity : ℚ)
          | Side.sell => (pos.entry_price - exit_price) * (pos.quantity : ℚ)⟩ ∧
      (rm.close_position symbol exit_price).2.current_capital =
        rm.current_capital +
          (match pos.side with
          | Side.buy => (exit_price - pos.entry_price) * (pos.quantity : ℚ)
          | Side.sell => (pos.entry_price - exit_price) * (pos.quantity : ℚ)) ∧
      (rm.close_position symbol exit_price).2.closed_trades =
        rm.closed_trades ++
          [⟨symbol, pos.side, pos.entry_price, exit_price, pos.quantity,
            match pos.side with
            | Side.buy => (exit_price - pos.entry_price) * (pos.quantity : ℚ)
            | Side.sell => (pos.entry_price - exit_price) * (pos.quantity : ℚ)⟩] ∧
      getKey (rm.close_position symbol exit_price).2.open_positions symbol = none) ∧
    ((mkRiskManager.open_position "SYM" Side.buy 100 10).close_position "SYM" 110).1 =
      some ⟨"SYM", Side.buy, 100, 110, 10, 100⟩ ∧
    ((mkRiskManager.open_position "SYM" Side.buy 100 10).close_position "SYM" 110).2.current_capital =
      mkRiskManager.current_capital + 100 ∧
    ((mkRiskManager.open_position "SYM" Side.sell 100 10).close_position "SYM" 90).1 =
      some ⟨"SYM", Side.sell, 100, 90, 10, 100⟩ ∧
    ((mkRiskManager.open_position "SYM" Side.sell 100 10).close_position "SYM" 90).2.current_capital =
      mkRiskManager.current_capital + 100 := by
  refine ⟨?_, ?_, ?_, ?_, ?_⟩
  · intro rm symbol exit_price pos hnd hpos
    unfold RiskManager.close_position
    rw [hpos]
    exact ⟨rfl, rfl, rfl, getKey_delKey_self _ _ hnd⟩
  · norm_num [mkRiskManager, RiskManager.open_position, RiskManager.close_position,
      getKey, setKey, delKey, RiskManager.calculate_stop_loss, RiskManager.calculate_take_profit]
  · norm_num [mkRiskManager, RiskManager.open_position, RiskManager.close_position,
      getKey, setKey, delKey, RiskManager.calculate_stop_loss, RiskManager.calculate_take_profit]
  · norm_num [mkRiskManager, RiskManager.open_position, RiskManager.close_position,
      getKey, setKey, delKey, RiskManager.calculate_stop_loss, RiskManager.calculate_take_profit]
  · norm_num [mkRiskManager, RiskManager.open_position, RiskManager.close_position,
      getKey, setKey, delKey, RiskManager.calculate_stop_loss, RiskManager.calculate_take_profit]

/-- Witness for C1: the general part applied to the concrete BUY round
trip of the claim. -/
theorem close_position_realizes_side_aware_pnl_witness :
    ((mkRiskManager.open_position "SYM" Side.buy 100 10).close_position "SYM" 110).1 =
      some ⟨"SYM", Side.buy, 100, 110, 10,
        match Side.buy with
        | Side.buy => ((110:ℚ) - 100) * ((10:ℤ) : ℚ)
        | Side.sell => ((100:ℚ) - 110) * ((10:ℤ) : ℚ)⟩ ∧
    ((mkRiskManager.open_position "SYM" Side.buy 100 10).close_position "SYM" 110).2.current_capital =
      (mkRiskManager.open_position "SYM" Side.buy 100 10).current_capital +
        (match Side.buy with
        | Side.buy => ((110:ℚ) - 100) * ((10:ℤ) : ℚ)
        | Side.sell => ((100:ℚ) - 110) * ((10:ℤ) : ℚ)) ∧
    ((mkRiskManager.open_position "SYM" Side.buy 100 10).close_position "SYM" 110).2.closed_trades =
      (mkRiskManager.open_position "SYM" Side.buy 100 10).closed_trades ++
        [⟨"SYM", Side.buy, 100, 110, 10,
          match Side.buy with
          | Side.buy => ((110:ℚ) - 100) * ((10:ℤ) : ℚ)
          | Side.sell => ((100:ℚ) - 110) * ((10:ℤ) : ℚ)⟩] ∧
    getKey ((mkRiskManager.open_position "SYM" Side.buy 100 10).close_position "SYM" 110).2.open_positions "SYM" =
      none :=
  close_position_realizes_side_aware_pnl.1
    (mkRiskManager.open_position "SYM" Side.buy 100 10) "SYM" 110
    ⟨Side.buy, 100, 10, 100 * (1 - 2/100), 100 * (1 + 4/100)⟩
    (by simp [mkRiskManager, RiskManager.open_position, setKey, keysNodup])
    (by norm_num [mkRiskManager, RiskManager.open_position, getKey, setKey,
      RiskManager.calculate_stop_loss, RiskManager.calculate_take_profit])

/-- C3: `close_position` on a symbol with no open position returns `None`
and leaves the entire manager state (capital, open-position map, closed
trades) unchanged. -/
theorem close_position_missing_is_noop :
    ∀ (rm : RiskManager) (symbol : String) (exit_price : ℚ),
      getKey rm.open_positions symbol = none →
      rm.close_position symbol exit_price = (none, rm) := by
  intro rm symbol exit_price h
  unfold RiskManager.close_position
  rw [h]

/-- Witness for C3 on a fresh manager. -/
theorem close_position_missing_is_noop_witness :
    mkRiskManager.close_position "NSE:TCS-EQ" 50 = (none, mkRiskManager) :=
  close_position_missing_is_noop mkRiskManager "NSE:TCS-EQ" 50 rfl

/-- C7 counterexample: `open_position` on a symbol that already has an
open position does not leave the old position in place — the second call
overwrites it (BUY 10 @100 is replaced by SELL 5 @200 with freshly
computed stop-loss/take-profit). -/
theorem open_position_existing_overwrites_cex :
    getKey ((mkRiskManager.open_position "X" Side.buy 100 10).open_position
        "X" Side.sell 200 5).open_positions "X" =
      some ⟨Side.sell, 200, 5, 200 * (1 + 2/100), 200 * (1 - 4/100)⟩ ∧
    getKey ((mkRiskManager.open_position "X" Side.buy 100 10).open_position
        "X" Side.sell 200 5).open_positions "X" ≠
      getKey (mkRiskManager.open_position "X" Side.buy 100 10).open_positions "X" := by
  constructor
  · norm_num [mkRiskManager, RiskManager.open_position, getKey, setKey,
      RiskManager.calculate_stop_loss, RiskManager.calculate_take_profit]
  · norm_num [mkRiskManager, RiskManager.open_position, getKey, setKey,
      RiskManager.calculate_stop_loss, RiskManager.calculate_take_profit]

/-- C7 amended: a call to `open_position` always records the position
built from its own arguments under the symbol — overwriting any
previously recorded position rather than preserving it. -/
theorem open_position_records_new_arguments :
    ∀ (rm : RiskManager) (symbol : String) (side : Side) (entry_price : ℚ) (quantity : ℤ),
      getKey (rm.open_position symbol side entry_price quantity).open_positions symbol =
        some ⟨side, entry_price, quantity,
          rm.calculate_stop_loss entry_price side,
          rm.calculate_take_profit entry_price side⟩ := by
  intro rm symbol side entry_price quantity
  unfold RiskManager.open_position
  exact getKey_setKey_self _ _ _

/-- C8 helper: for the purpose of a 1-floored result, Python `int()`
truncation agrees with mathematical floor (they differ only below zero,
where both sides collapse to 1). -/
theorem max_one_pyInt (q : ℚ) : max 1 (pyInt q) = max 1 (Int.floor q) := by
  unfold pyInt
  by_cases h : q < 0
  · rw [if_pos h]
    have h1 : Int.floor q ≤ 0 := Int.floor_nonpos h.le
    have h2 : 0 ≤ Int.floor (-q) := Int.floor_nonneg.mpr (by linarith)
    omega
  · rw [if_neg h]

/-- C8: `calculate_position_size` returns
`floor(capital × risk_per_trade ÷ (entry × stop_loss_pct))` floored
below at 1 share, and returns 1 outright when the stop-loss distance is
zero; the function is total (the zero guard precedes the division). -/
theorem calculate_position_size_floor :
    ∀ (rm : RiskManager) (entry_price : ℚ), 0 ≤ entry_price →
      rm.calculate_position_size entry_price =
        if entry_price * rm.stop_loss_pct = 0 then 1
        else max 1 (Int.floor (rm.current_capital * rm.max_risk_per_trade /
          (entry_price * rm.stop_loss_pct))) := by
  intro rm entry_price _
  unfold RiskManager.calculate_position_size
  by_cases hz : entry_price * rm.stop_loss_pct = 0
  · simp [hz]
  · simp only [if_neg hz]
    exact max_one_pyInt _

/-- Witness for C8: with the default parameters and entry price 100 the
size is `max 1 ⌊2000 / 2⌋ = 1000`. -/
theorem calculate_position_size_floor_witness :
    mkRiskManager.calculate_position_size 100 =
      if (100:ℚ) * mkRiskManager.stop_loss_pct = 0 then 1
      else max 1 (Int.floor (mkRiskManager.current_capital * mkRiskManager.max_risk_per_trade /
        ((100:ℚ) * mkRiskManager.stop_loss_pct))) :=
  calculate_position_size_floor mkRiskManager 100 (by norm_num)

/-- C10 counterexample: on an empty trade history `get_stats` returns the
zero aggregates but *omits* the final capital (the empty-history branch
of the code builds a dict without a `'final_capital'` key), contradicting
"together with the final capital". -/
theorem get_stats_empty_omits_final_capital :
    mkRiskManager.closed_trades = [] ∧
    mkRiskManager.get_stats =
      { total_trades := 0, winning_trades := 0, losing_trades := 0, win_rate := 0,
        total_pnl := 0, avg_win := 0, avg_loss := 0, profit_factor := 0,
        final_capital := none } :=
  ⟨rfl, rfl⟩

/-- C10 amended: on an empty trade history `get_stats` returns explicit
zeros for every aggregate (but no final capital, which is only reported
when at least one trade exists), and no evaluation of `get_stats` ever
divides by zero: the division-checked rerun `get_stats_checked` always
succeeds with the same result, for every trade history. -/
theorem get_stats_zero_safe :
    (∀ rm : RiskManager, rm.closed_trades = [] →
      rm.get_stats = ⟨0, 0, 0, 0, 0, 0, 0, 0, none⟩) ∧
    (∀ rm : RiskManager, rm.get_stats_checked = some rm.get_stats) := by
  constructor
  · intro rm h
    unfold RiskManager.get_stats
    rw [if_pos h]
  · intro rm
    unfold RiskManager.get_stats RiskManager.get_stats_checked
    by_cases h : rm.closed_trades = []
    · rw [if_pos h, if_pos h]
    · rw [if_neg h, if_neg h]
      dsimp only
      have htot : 0 < rm.closed_trades.length := List.length_pos.mpr h
      have htotQ : ¬((rm.closed_trades.length : ℚ) = 0) := by
        simpa [List.length_eq_zero] using h
      by_cases hw : rm.closed_trades.filter (fun t => 0 < t.pnl) = [] <;>
        by_cases hl : rm.closed_trades.filter (fun t => t.pnl < 0) = [] <;>
        by_cases hg : 0 < |((rm.closed_trades.filter (fun t => t.pnl < 0)).map RMTrade.pnl).sum| <;>
        first
        | simp [safeDiv, hw, hl, hg, htot, htotQ, ne_of_gt hg, Nat.cast_eq_zero, List.length_eq_zero]
        | simp [safeDiv, hw, hl, hg, htot, htotQ, Nat.cast_eq_zero, List.length_eq_zero]

/-- Witness for C10 (amended): both parts applied to the fresh manager. -/
theorem get_stats_zero_safe_witness :
    mkRiskManager.get_stats = ⟨0, 0, 0, 0, 0, 0, 0, 0, none⟩ ∧
    mkRiskManager.get_stats_checked = some mkRiskManager.get_stats :=
  ⟨get_stats_zero_safe.1 mkRiskManager rfl, get_stats_zero_safe.2 mkRiskManager⟩

/-- C2: at most one open position per (owner, symbol) in both ownership
scopes. Strategy scope: the position attribute is a single optional
record (so ≤ 1 by construction); a same-side signal is a no-op, an
opposite-side signal appends exactly one closing trade (PnL realized
against the new candle's close) and replaces the position. RiskManager
scope: `open_position` and `close_position` preserve the dict invariant
that the open-position map has no duplicate symbol keys. -/
theorem at_most_one_open_position_per_owner_symbol :
    (∀ (s : StratState) (c : Candle) (q : ℤ) (p : StratPosition),
      s.position = some p → p.side = Side.buy → s.handle_buy_signal c q = s) ∧
    (∀ (s : StratState) (c : Candle) (q : ℤ) (p : StratPosition),
      s.position = some p → p.side = Side.sell → s.handle_sell_signal c q = s) ∧
    (∀ (s : StratState) (c : Candle) (q : ℤ) (p : StratPosition),
      s.position = some p → p.side = Side.sell →
      (s.handle_buy_signal c q).trades =
        s.trades ++ [⟨s.symbol, Side.sell, p.entry_price, c.close, p.quantity,
          (p.entry_price - c.close) * (p.quantity : ℚ), p.entry_time, c.time⟩] ∧
      (s.handle_buy_signal c q).position = some ⟨Side.buy, c.close, q, c.time⟩) ∧
    (∀ (s : StratState) (c : Candle) (q : ℤ) (p : StratPosition),
      s.position = some p → p.side = Side.buy →
      (s.handle_sell_signal c q).trades =
        s.trades ++ [⟨s.symbol, Side.buy, p.entry_price, c.close, p.quantity,
          (c.close - p.entry_price) * (p.quantity : ℚ), p.entry_time, c.time⟩] ∧
      (s.handle_sell_signal c q).position = some ⟨Side.sell, c.close, q, c.time⟩) ∧
    (∀ (rm : RiskManager) (symbol : String) (side : Side) (entry_price : ℚ) (quantity : ℤ),
      keysNodup rm.open_positions →
      keysNodup (rm.open_position symbol side entry_price quantity).open_positions) ∧
    (∀ (rm : RiskManager) (symbol : String) (exit_price : ℚ),
      keysNodup rm.open_positions →
      keysNodup (rm.close_position symbol exit_price).2.open_positions) := by
  refine ⟨?_, ?_, ?_, ?_, ?_, ?_⟩
  · intro s c q p hpos hside
    obtain ⟨side, ep, qty, et⟩ := p
    cases hside
    unfold StratState.handle_buy_signal
    rw [hpos]
  · intro s c q p hpos hside
    obtain ⟨side, ep, qty, et⟩ := p
    cases hside
    unfold StratState.handle_sell_signal
    rw [hpos]
  · intro s c q p hpos hside
    obtain ⟨side, ep, qty, et⟩ := p
    cases hside
    unfold StratState.handle_buy_signal StratState.close_position
    rw [hpos]
    exact ⟨rfl, rfl⟩
  · intro s c q p hpos hside
    obtain ⟨side, ep, qty, et⟩ := p
    cases hside
    unfold StratState.handle_sell_signal StratState.close_position
    rw [hpos]
    exact ⟨rfl, rfl⟩
  · intro rm symbol side entry_price quantity h
    unfold RiskManager.open_position
    exact keysNodup_setKey _ _ _ h
  · intro rm symbol exit_price h
    unfold RiskManager.close_position
    cases hg : getKey rm.open_positions symbol with
    | none => exact h
    | some pos => exact keysNodup_delKey _ _ h

/-- Witness for C2: all six parts at concrete states (a long state, a
short state, a fresh manager with one open position). -/
theorem at_most_one_open_position_per_owner_symbol_witness :
    StratState.handle_buy_signal ⟨"S", some ⟨Side.buy, 100, 1, 0⟩, []⟩
        ⟨"S", 1, 101, 101, 101, 101, 0⟩ 1 =
      ⟨"S", some ⟨Side.buy, 100, 1, 0⟩, []⟩ ∧
    StratState.handle_sell_signal ⟨"S", some ⟨Side.sell, 100, 1, 0⟩, []⟩
        ⟨"S", 1, 101, 101, 101, 101, 0⟩ 1 =
      ⟨"S", some ⟨Side.sell, 100, 1, 0⟩, []⟩ ∧
    (StratState.handle_buy_signal ⟨"S", some ⟨Side.sell, 100, 1, 0⟩, []⟩
        ⟨"S", 1, 101, 101, 101, 101, 0⟩ 1).trades =
      [] ++ [⟨"S", Side.sell, 100, 101, 1, ((100:ℚ) - 101) * ((1:ℤ) : ℚ), 0, 1⟩] ∧
    (StratState.handle_buy_signal ⟨"S", some ⟨Side.sell, 100, 1, 0⟩, []⟩
        ⟨"S", 1, 101, 101, 101, 101, 0⟩ 1).position = some ⟨Side.buy, 101, 1, 1⟩ ∧
    (StratState.handle_sell_signal ⟨"S", some ⟨Side.buy, 100, 1, 0⟩, []⟩
        ⟨"S", 1, 101, 101, 101, 101, 0⟩ 1).trades =
      [] ++ [⟨"S", Side.buy, 100, 101, 1, ((101:ℚ) - 100) * ((1:ℤ) : ℚ), 0, 1⟩] ∧
    (StratState.handle_sell_signal ⟨"S", some ⟨Side.buy, 100, 1, 0⟩, []⟩
        ⟨"S", 1, 101, 101, 101, 101, 0⟩ 1).position = some ⟨Side.sell, 101, 1, 1⟩ ∧
    keysNodup (mkRiskManager.open_position "X" Side.buy 100 10).open_positions ∧
    keysNodup ((mkRiskManager.open_position "X" Side.buy 100 10).close_position "X" 99).2.open_positions := by
  have h1 := at_most_one_open_position_per_owner_symbol.1
    ⟨"S", some ⟨Side.buy, 100, 1, 0⟩, []⟩ ⟨"S", 1, 101, 101, 101, 101, 0⟩ 1
    ⟨Side.buy, 100, 1, 0⟩ rfl rfl
  have h2 := at_most_one_open_position_per_owner_symbol.2.1
    ⟨"S", some ⟨Side.sell, 100, 1, 0⟩, []⟩ ⟨"S", 1, 101, 101, 101, 101, 0⟩ 1
    ⟨Side.sell, 100, 1, 0⟩ rfl rfl
  have h3 := at_most_one_open_position_per_owner_symbol.2.2.1
    ⟨"S", some ⟨Side.sell, 100, 1, 0⟩, []⟩ ⟨"S", 1, 101, 101, 101, 101, 0⟩ 1
    ⟨Side.sell, 100, 1, 0⟩ rfl rfl
  have h4 := at_most_one_open_position_per_owner_symbol.2.2.2.1
    ⟨"S", some ⟨Side.buy, 100, 1, 0⟩, []⟩ ⟨"S", 1, 101, 101, 101, 101, 0⟩ 1
    ⟨Side.buy, 100, 1, 0⟩ rfl rfl
  have h5 := at_most_one_open_position_per_owner_symbol.2.2.2.2.1
    mkRiskManager "X" Side.buy 100 10 (by simp [mkRiskManager, keysNodup])
  have h6 := at_most_one_open_position_per_owner_symbol.2.2.2.2.2
    (mkRiskManager.open_position "X" Side.buy 100 10) "X" 99 h5
  exact ⟨h1, h2, h3.1, h3.2, h4.1, h4.2, h5, h6⟩

/-- C9: a direction is dominant only with at least 2 of the 3 strategy
votes, in both consensus implementations: `check_consensus` (realtime
engine) only fires with ≥ 2 votes for the fired direction; with 2 BUY and
1 SELL vote the decision is BUY; with a 1-1-1 split (one BUY, one SELL,
one abstention) neither implementation takes any action. -/
theorem consensus_requires_two_votes :
    (∀ (signals : List (Option Side)) (hasActive : Bool),
      check_consensus signals hasActive = some Side.buy →
      2 ≤ (signals.filter (fun a => a = some Side.buy)).length) ∧
    (∀ (signals : List (Option Side)) (hasActive : Bool),
      check_consensus signals hasActive = some Side.sell →
      2 ≤ (signals.filter (fun a => a = some Side.sell)).length) ∧
    check_consensus [some Side.buy, some Side.buy, some Side.sell] false = some Side.buy ∧
    dominant_signals false false [Side.buy, Side.buy, Side.sell] = [Side.buy, Side.buy] ∧
    (∀ b : Bool, check_consensus [some Side.buy, some Side.sell, none] b = none) ∧
    (∀ m b : Bool, dominant_signals m b [Side.buy, Side.sell] = []) := by
  refine ⟨?_, ?_, by decide, by decide, by decide, by decide⟩
  · intro signals hasActive h
    unfold check_consensus at h
    dsimp only at h
    split_ifs at h with h1 h2
    all_goals first
    | exact h1.1
    | exact absurd h (by simp)
  · intro signals hasActive h
    unfold check_consensus at h
    dsimp only at h
    split_ifs at h with h1 h2
    all_goals first
    | exact h2.1
    | exact absurd h (by simp)

/-- Witness for C9: the quorum bounds applied to concrete vote lists. -/
theorem consensus_requires_two_votes_witness :
    2 ≤ (([some Side.buy, some Side.buy, some Side.sell] :
        List (Option Side)).filter (fun a => a = some Side.buy)).length ∧
    2 ≤ (([some Side.sell, some Side.sell, none] :
        List (Option Side)).filter (fun a => a = some Side.sell)).length :=
  ⟨consensus_requires_two_votes.1 [some Side.buy, some Side.buy, some Side.sell] false
      (by decide),
    consensus_requires_two_votes.2.1 [some Side.sell, some Side.sell, none] true
      (by decide)⟩

theorem processTicks_some (ts : List Tick) (c : RTCandle)
    (hw : ∀ t ∈ ts, t.ltp ≠ 0) :
    ts.foldl processTick (some c) =
      some ⟨c.open_price,
        ts.foldl (fun a t => max a t.ltp) c.high,
        ts.foldl (fun a t => min a t.ltp) c.low,
        ts.foldl (fun _ t => t.ltp) c.close,
        ts.foldl (fun a t => if t.volume = 0 then a else t.volume) c.volume⟩ := by
  induction ts generalizing c with
  | nil => rfl
  | cons t rest ih =>
    have ht : t.ltp ≠ 0 := hw t (List.mem_cons_self _ _)
    simp only [List.foldl_cons]
    rw [show processTick (some c) t =
        some ⟨c.open_price, max c.high t.ltp, min c.low t.ltp, t.ltp,
          if t.volume = 0 then c.volume else t.volume⟩ by
      simp [processTick, ht]]
    exact ih _ (fun x hx => hw x (List.mem_cons_of_mem _ hx))

theorem foldl_max_spec (l : List ℚ) (a : ℚ) :
    (l.foldl max a = a ∨ l.foldl max a ∈ l) ∧
    a ≤ l.foldl max a ∧ ∀ x ∈ l, x ≤ l.foldl max a := by
  induction l generalizing a with
  | nil => simp
  | cons y rest ih =>
    obtain ⟨hmem, hle, hub⟩ := ih (max a y)
    refine ⟨?_, ?_, ?_⟩
    · simp only [List.foldl_cons]
      rcases hmem with h | h
      · rcases max_choice a y with he | he
        · left; rw [h, he]
        · right; rw [h, he]; exact List.mem_cons_self _ _
      · right; exact List.mem_cons_of_mem _ h
    · exact le_trans (le_max_left a y) hle
    · intro x hx
      rcases List.mem_cons.mp hx with rfl | hx
      · exact le_trans (le_max_right a x) hle
      · exact hub x hx

theorem foldl_min_spec (l : List ℚ) (a : ℚ) :
    (l.foldl min a = a ∨ l.foldl min a ∈ l) ∧
    l.foldl min a ≤ a ∧ ∀ x ∈ l, l.foldl min a ≤ x := by
  induction l generalizing a with
  | nil => simp
  | cons y rest ih =>
    obtain ⟨hmem, hle, hlb⟩ := ih (min a y)
    refine ⟨?_, ?_, ?_⟩
    · simp only [List.foldl_cons]
      rcases hmem with h | h
      · rcases min_choice a y with he | he
        · left; rw [h, he]
        · right; rw [h, he]; exact List.mem_cons_self _ _
      · right; exact List.mem_cons_of_mem _ h
    · exact le_trans hle (min_le_left a y)
    · intro x hx
      rcases List.mem_cons.mp hx with rfl | hx
      · exact le_trans hle (min_le_right a x)
      · exact hlb x hx

theorem foldl_lastPrice (t : Tick) (rest : List Tick) (x : ℚ) :
    some ((t :: rest).foldl (fun _ s => s.ltp) x) =
      ((t :: rest).getLast?).map Tick.ltp := by
  induction rest generalizing t x with
  | nil => rfl
  | cons r rs ih =>
    rw [List.foldl_cons, List.getLast?_cons_cons]
    exact ih r t.ltp

/-- C5 amended / OHLC part: for every nonempty tick sequence within one
bar interval whose prices are all nonzero (a zero price is dropped by the
`if not ltp` guard), the in-progress candle exists and satisfies
open = first price, close = last price, high = maximum price,
low = minimum price — and volume = the last *nonzero* reported volume
(0 if none), i.e. the latest report overwrites, it is not accumulated
with `max`. -/
theorem aggregator_inprogress_candle :
    ∀ (t0 : Tick) (rest : List Tick),
      (∀ t ∈ t0 :: rest, t.ltp ≠ 0) →
      ∃ c : RTCandle, buildCandle (t0 :: rest) = some c ∧
        c.open_price = t0.ltp ∧
        some c.close = ((t0 :: rest).getLast?).map Tick.ltp ∧
        c.high ∈ (t0 :: rest).map Tick.ltp ∧
        (∀ p ∈ (t0 :: rest).map Tick.ltp, p ≤ c.high) ∧
        c.low ∈ (t0 :: rest).map Tick.ltp ∧
        (∀ p ∈ (t0 :: rest).map Tick.ltp, c.low ≤ p) ∧
        c.volume = (t0 :: rest).foldl (fun a t => if t.volume = 0 then a else t.volume) 0 := by
  intro t0 rest hw
  have ht0 : t0.ltp ≠ 0 := hw t0 (List.mem_cons_self _ _)
  have hrest : ∀ t ∈ rest, t.ltp ≠ 0 := fun t ht => hw t (List.mem_cons_of_mem _ ht)
  unfold buildCandle
  rw [List.foldl_cons]
  rw [show processTick none t0 =
      some ⟨t0.ltp, t0.ltp, t0.ltp, t0.ltp, if t0.volume = 0 then 0 else t0.volume⟩ by
    simp [processTick, ht0]]
  rw [processTicks_some rest _ hrest]
  obtain ⟨hmax_mem, hmax_le, hmax_ub⟩ := foldl_max_spec (rest.map Tick.ltp) t0.ltp
  obtain ⟨hmin_mem, hmin_le, hmin_lb⟩ := foldl_min_spec (rest.map Tick.ltp) t0.ltp
  rw [← List.foldl_map Tick.ltp max, ← List.foldl_map Tick.ltp min]
  refine ⟨_, rfl, rfl, ?_, ?_, ?_, ?_, ?_, rfl⟩
  · cases rest with
    | nil => rfl
    | cons r rs =>
      rw [List.getLast?_cons_cons]
      exact foldl_lastPrice r rs t0.ltp
  · simp only [List.map_cons, List.mem_cons]
    rcases hmax_mem with h | h
    · exact Or.inl h
    · exact Or.inr h
  · intro p hp
    simp only [List.map_cons, List.mem_cons] at hp
    rcases hp with rfl | hp
    · exact hmax_le
    · exact hmax_ub p hp
  · simp only [List.map_cons, List.mem_cons]
    rcases hmin_mem with h | h
    · exact Or.inl h
    · exact Or.inr h
  · intro p hp
    simp only [List.map_cons, List.mem_cons] at hp
    rcases hp with rfl | hp
    · exact hmin_le
    · exact hmin_lb p hp

/-- Witness for C5 (amended): two ticks 100 then 101 with reported
volumes 10 then 5. -/
theorem aggregator_inprogress_candle_witness :
    ∃ c : RTCandle,
      buildCandle [⟨100, 10⟩, ⟨101, 5⟩] = some c ∧
      c.open_price = (100:ℚ) ∧
      some c.close = (([⟨100, 10⟩, ⟨101, 5⟩] : List Tick).getLast?).map Tick.ltp ∧
      c.high ∈ ([⟨100, 10⟩, ⟨101, 5⟩] : List Tick).map Tick.ltp ∧
      (∀ p ∈ ([⟨100, 10⟩, ⟨101, 5⟩] : List Tick).map Tick.ltp, p ≤ c.high) ∧
      c.low ∈ ([⟨100, 10⟩, ⟨101, 5⟩] : List Tick).map Tick.ltp ∧
      (∀ p ∈ ([⟨100, 10⟩, ⟨101, 5⟩] : List Tick).map Tick.ltp, c.low ≤ p) ∧
      c.volume = ([⟨100, 10⟩, ⟨101, 5⟩] : List Tick).foldl
        (fun a t => if t.volume = 0 then a else t.volume) 0 :=
  aggregator_inprogress_candle ⟨100, 10⟩ [⟨101, 5⟩] (by norm_num)

/-- C5 counterexample (volume part): reported volumes 10 then 5 within
one interval give candle volume 5 (last report wins), not
`max 10 5 = 10` as the monotonic-counter reading of the claim requires. -/
theorem aggregator_volume_not_max_cex :
    buildCandle [⟨100, 10⟩, ⟨101, 5⟩] = some ⟨100, 101, 100, 101, 5⟩ ∧
    (5 : ℤ) ≠ max 10 5 := by
  constructor
  · norm_num [buildCandle, processTick]
  · decide

/-- A constant-price candle at integer time `i`, for feeding the
mean-reversion strategy a constant price series. -/
def constCandle (c : ℚ) (i : ℕ) : Candle := ⟨"S", (i : ℤ), c, c, c, c, 0⟩

theorem bollinger_bands_replicate (sqrt : ℚ → ℚ) (hsqrt : sqrt 0 = 0)
    (period : ℕ) (hp : 1 ≤ period) (k c : ℚ) (m : ℕ) (hm : period ≤ m) :
    calculate_bollinger_bands sqrt period k (List.replicate m c) = some (c, c, c) := by
  unfold calculate_bollinger_bands
  rw [if_neg (by rw [List.length_replicate]; omega)]
  dsimp only
  rw [List.length_replicate, List.drop_replicate]
  have hpq : ((period : ℚ)) ≠ 0 := Nat.cast_ne_zero.mpr (by omega)
  have hrep : m - (m - period) = period := by omega
  rw [hrep]
  have hma : (List.replicate period c).sum / ((List.replicate period c).length : ℚ) = c := by
    rw [List.sum_replicate, List.length_replicate, nsmul_eq_mul, mul_comm,
      mul_div_assoc, div_self hpq, mul_one]
  rw [hma]
  have hvar : ((List.replicate period c).map (fun x => (x - c) ^ 2)).sum /
      ((List.replicate period c).length : ℚ) = 0 := by
    rw [List.map_replicate, List.length_replicate]
    simp
  rw [hvar, hsqrt]
  norm_num

theorem scalp_on_candle_short (sqrt : ℚ → ℚ) (s : ScalpState) (cd : Candle)
    (hlen : s.price_history.length + 1 ≤ 100)
    (hshort : s.price_history.length + 1 < s.bb_period) :
    ScalpState.on_candle sqrt s cd =
      ({ s with price_history := s.price_history ++ [cd.close] }, none) := by
  unfold ScalpState.on_candle
  dsimp only
  rw [if_neg (by rw [List.length_append, List.length_cons, List.length_nil]; omega)]
  rw [show calculate_bollinger_bands sqrt s.bb_period s.bb_std
      (s.price_history ++ [cd.close]) = none by
    unfold calculate_bollinger_bands
    rw [if_pos (by rw [List.length_append, List.length_cons, List.length_nil]; omega)]]

theorem scalp_const_run_flat (sqrt : ℚ → ℚ) (period : ℕ) (k c : ℚ) (i : ℕ)
    (hi : i < period) (h100 : period ≤ 100) :
    (List.range i).foldl (fun st j => (ScalpState.on_candle sqrt st (constCandle c j)).1)
      (mkScalp "S" period k) =
    ⟨⟨"S", none, []⟩, period, k, List.replicate i c⟩ := by
  induction i with
  | zero => rfl
  | succ n ih =>
    rw [List.range_succ, List.foldl_append, ih (by omega), List.foldl_cons, List.foldl_nil]
    rw [scalp_on_candle_short sqrt _ _ (by simp [List.length_replicate]; omega)
      (by simp [List.length_replicate]; omega)]
    show (⟨⟨"S", none, []⟩, period, k, List.replicate n c ++ [(constCandle c n).close]⟩ :
      ScalpState) = _
    rw [show (constCandle c n).close = c from rfl, ← List.replicate_succ']

theorem scalp_buy_at_period (sqrt : ℚ → ℚ) (hsqrt : sqrt 0 = 0)
    (period : ℕ) (k c : ℚ) (hp : 1 ≤ period) (h100 : period ≤ 100) (hc : c ≠ 0) :
    (ScalpState.on_candle sqrt ⟨⟨"S", none, []⟩, period, k, List.replicate (period - 1) c⟩
        (constCandle c (period - 1))).2 = some Side.buy ∧
    (ScalpState.on_candle sqrt ⟨⟨"S", none, []⟩, period, k, List.replicate (period - 1) c⟩
        (constCandle c (period - 1))).1.base.position =
      some ⟨Side.buy, c, 1, ((period - 1 : ℕ) : ℤ)⟩ := by
  unfold ScalpState.on_candle
  dsimp only
  rw [show (constCandle c (period - 1)).close = c from rfl]
  rw [← List.replicate_succ', show period - 1 + 1 = period by omega]
  rw [if_neg (by rw [List.length_replicate]; omega)]
  rw [bollinger_bands_replicate sqrt hsqrt period hp k c period le_rfl]
  dsimp only
  rw [if_neg hc, if_pos le_rfl]
  unfold StratState.handle_buy_signal
  exact ⟨rfl, rfl⟩

/-- C6 counterexample: with `bb_period = 2` and the constant price 100,
the second candle already returns a BUY signal and opens a long position
(the entry test is the non-strict `close <= lower`, and on a constant
series `lower = close`), refuting "a BUY signal never fires". The float
square root is evaluated only at variance 0, where `id` agrees with it. -/
theorem bollinger_constant_price_buy_fires_cex :
    (((mkScalp "S" 2 2).on_candle id (constCandle 100 0)).1.on_candle id
        (constCandle 100 1)).2 = some Side.buy ∧
    (((mkScalp "S" 2 2).on_candle id (constCandle 100 0)).1.on_candle id
        (constCandle 100 1)).1.base.position = some ⟨Side.buy, 100, 1, 1⟩ := by
  constructor <;>
    norm_num [mkScalp, constCandle, ScalpState.on_candle, calculate_bollinger_bands,
      StratState.handle_buy_signal]

/-- C6 amended: on a constant nonzero price series the Bollinger bands
collapse to `upper = middle = lower` (σ = 0) as claimed, but — because
the entry comparison is the non-strict `close <= lower` — a BUY *does*
fire: starting flat, the strategy emits a BUY and opens a position at the
first candle at which the history reaches `bb_period` (for any
`1 ≤ bb_period ≤ 100`, within the 100-price history cap). Stated for any
model `sqrt` of the float square root with `sqrt 0 = 0`. -/
theorem bollinger_constant_collapse_and_nonstrict_buy :
    ∀ (sqrt : ℚ → ℚ), sqrt 0 = 0 →
    ∀ (period : ℕ) (k c : ℚ), 1 ≤ period → period ≤ 100 → c ≠ 0 →
    (∀ m : ℕ, period ≤ m →
      calculate_bollinger_bands sqrt period k (List.replicate m c) = some (c, c, c)) ∧
    ((List.range (period - 1)).foldl
        (fun st j => (ScalpState.on_candle sqrt st (constCandle c j)).1)
        (mkScalp "S" period k)).base.position = none ∧
    (ScalpState.on_candle sqrt
        ((List.range (period - 1)).foldl
          (fun st j => (ScalpState.on_candle sqrt st (constCandle c j)).1)
          (mkScalp "S" period k))
        (constCandle c (period - 1))).2 = some Side.buy ∧
    (ScalpState.on_candle sqrt
        ((List.range (period - 1)).foldl
          (fun st j => (ScalpState.on_candle sqrt st (constCandle c j)).1)
          (mkScalp "S" period k))
        (constCandle c (period - 1))).1.base.position =
      some ⟨Side.buy, c, 1, ((period - 1 : ℕ) : ℤ)⟩ := by
  intro sqrt hsqrt period k c hp h100 hc
  have hrun := scalp_const_run_flat sqrt period k c (period - 1) (by omega) h100
  obtain ⟨hbuy, hopen⟩ := scalp_buy_at_period sqrt hsqrt period k c hp h100 hc
  refine ⟨fun m hm => bollinger_bands_replicate sqrt hsqrt period hp k c m hm, ?_, ?_, ?_⟩
  · rw [hrun]
  · rw [hrun]; exact hbuy
  · rw [hrun]; exact hopen

/-- Witness for C6 (amended): `sqrt := id` (which agrees with the float
square root at 0), `bb_period = 3`, `k = 2`, constant price 50. -/
theorem bollinger_constant_collapse_and_nonstrict_buy_witness :
    (∀ m : ℕ, 3 ≤ m →
      calculate_bollinger_bands id 3 2 (List.replicate m (50:ℚ)) = some (50, 50, 50)) ∧
    ((List.range (3 - 1)).foldl
        (fun st j => (ScalpState.on_candle id st (constCandle 50 j)).1)
        (mkScalp "S" 3 2)).base.position = none ∧
    (ScalpState.on_candle id
        ((List.range (3 - 1)).foldl
          (fun st j => (ScalpState.on_candle id st (constCandle 50 j)).1)
          (mkScalp "S" 3 2))
        (constCandle 50 (3 - 1))).2 = some Side.buy ∧
    (ScalpState.on_candle id
        ((List.range (3 - 1)).foldl
          (fun st j => (ScalpState.on_candle id st (constCandle 50 j)).1)
          (mkScalp "S" 3 2))
        (constCandle 50 (3 - 1))).1.base.position =
      some ⟨Side.buy, 50, 1, ((3 - 1 : ℕ) : ℤ)⟩ :=
  bollinger_constant_collapse_and_nonstrict_buy id rfl 3 2 50
    (by norm_num) (by norm_num) (by norm_num)

/-- C4: the backtest driver performs no end-of-sequence finalize. With
`bb_period = 1` and the single candle close 100 the strategy opens a long
on that (final) candle; after `run` returns, the strategy position is
still open, no closing trade was recorded (force-closed zero times, not
exactly once), and the reported statistics count 0 trades. -/
theorem backtest_end_no_force_close :
    (backtestRun id (mkScalp "S" 1 2) [⟨"S", 0, 100, 100, 100, 100, 0⟩]).1.base.position =
      some ⟨Side.buy, 100, 1, 0⟩ ∧
    (backtestRun id (mkScalp "S" 1 2) [⟨"S", 0, 100, 100, 100, 100, 0⟩]).1.base.trades = [] ∧
    (backtestRun id (mkScalp "S" 1 2) [⟨"S", 0, 100, 100, 100, 100, 0⟩]).2.total_trades = 0 := by
  refine ⟨?_, ?_, ?_⟩ <;>
    norm_num [backtestRun, mkScalp, ScalpState.on_candle, calculate_bollinger_bands,
      StratState.handle_buy_signal, StratState.get_stats]
